import Mathlib

/-!
Verification of the PlantDoc dataset conversion pipeline
(`scripts/reorganize_dataset.py`, `scripts/update_csv_labels.py`,
`scripts/convert_to_coco.py`).

Python strings are embedded as lists of Unicode code points (`PyStr`);
the string operations used by the scripts (`lower`, `title`,
`capitalize`, `replace` on single characters, `strip`, `isdigit`,
`splitlines`, `str.stem`) are modelled character by character with the
ASCII casing rules that Python applies to ASCII text.  Python dicts are
embedded as association lists with insertion-order iteration and
update-in-place assignment, matching dict semantics.  Python floats are
idealized as exact rationals, and `float()` literal parsing is modelled
for plain decimal notation.
-/

/-- Python strings as lists of code points. -/
abbrev PyStr := List Nat

/-- String literal helper used only to write concrete inputs readably. -/
def pyOfString (s : String) : PyStr := s.data.map Char.toNat

/-- ASCII lowercasing of one code point, as Python lower does on ASCII. -/
def lowerChar (c : Nat) : Nat := if 65 ≤ c ∧ c ≤ 90 then c + 32 else c

/-- ASCII uppercasing of one code point, as Python upper does on ASCII. -/
def upperChar (c : Nat) : Nat := if 97 ≤ c ∧ c ≤ 122 then c - 32 else c

/-- ASCII letter test (the cased characters of ASCII). -/
def isAlphaChar (c : Nat) : Bool := (65 ≤ c && c ≤ 90) || (97 ≤ c && c ≤ 122)

/-- ASCII digit test for one code point. -/
def isDigitChar (c : Nat) : Bool := 48 ≤ c && c ≤ 57

/-- Python whitespace test for the characters stripped by `str.strip`. -/
def isSpaceChar (c : Nat) : Bool := c == 32 || (9 ≤ c && c ≤ 13)

/-- Model of `s.lower()` on ASCII text. -/
def pyLower (s : PyStr) : PyStr := s.map lowerChar

/-- Model of `s.replace(" ", "_")` (the arguments are single characters,
so replace is a character map). -/
def spaceToUnderscore (s : PyStr) : PyStr := s.map (fun c => if c = 32 then 95 else c)

/-- Model of `s.replace("_", " ")`. -/
def underscoreToSpace (s : PyStr) : PyStr := s.map (fun c => if c = 95 then 32 else c)

/-- Helper for `s.title()`: the flag records whether the previous
character was cased; a cased character after an uncased one is
uppercased, after a cased one it is lowercased. -/
def pyTitleAux (prevCased : Bool) : List Nat → List Nat
  | [] => []
  | c :: cs =>
    if isAlphaChar c then
      (if prevCased then lowerChar c else upperChar c) :: pyTitleAux true cs
    else
      c :: pyTitleAux false cs

/-- Model of `s.title()` on ASCII text. -/
def pyTitle (s : PyStr) : PyStr := pyTitleAux false s

/-- Model of `s.capitalize()` on ASCII text: first character uppercased,
the rest lowercased. -/
def pyCapitalize : PyStr → PyStr
  | [] => []
  | c :: cs => upperChar c :: cs.map lowerChar

/-- Model of `s.strip()`. -/
def pyStrip (s : PyStr) : PyStr :=
  ((s.dropWhile isSpaceChar).reverse.dropWhile isSpaceChar).reverse

/-- Model of `s.isdigit()` for ASCII text: nonempty and all digits. -/
def pyIsDigit (s : PyStr) : Bool := !s.isEmpty && s.all isDigitChar

/-- The normalization applied to incoming labels:
`label.lower().replace(" ", "_")`. -/
def normalizeLabel (s : PyStr) : PyStr := spaceToUnderscore (pyLower s)

/-- Fuel-driven digit expansion; the fuel argument only bounds the
recursion depth and is never exhausted when it starts at the number
itself. -/
def natDigitsGo : Nat → Nat → PyStr
  | 0, n => [48 + n % 10]
  | fuel + 1, n => if n < 10 then [48 + n] else natDigitsGo fuel (n / 10) ++ [48 + n % 10]

/-- Decimal digits of a natural number, as code points (model of `str(n)`
for a nonnegative integer). -/
def natDigits (n : Nat) : PyStr := natDigitsGo n n

/-- Model of `str(i)` for a Python int. -/
def intStr (i : Int) : PyStr :=
  if i < 0 then 45 :: natDigits i.natAbs else natDigits i.toNat

/-- Value of a digit string (model of `int(label)` on a string that
passed `isdigit`). -/
def pyIntOfDigits (s : PyStr) : Int :=
  (s.foldl (fun a c => a * 10 + (c - 48)) 0 : Nat)

/-- Python dict from strings to ints, as an association list in
insertion order with unique keys. -/
abbrev Table := List (PyStr × Int)

/-- Model of `d[k] = v`: update in place if the key is present (keeping
its position), otherwise append, as Python dict assignment does. -/
def pyInsert (t : Table) (k : PyStr) (v : Int) : Table :=
  match t with
  | [] => [(k, v)]
  | (k', v') :: rest => if k' = k then (k, v) :: rest else (k', v') :: pyInsert rest k v

/-- Model of `d[k]` / `k in d`: lookup by key. -/
def pyLookup (t : Table) (k : PyStr) : Option Int :=
  match t with
  | [] => none
  | (k', v') :: rest => if k' = k then some v' else pyLookup rest k

/-- Lexicographic comparison of code-point strings, as Python string
comparison orders ASCII text. -/
def pyStrLe : PyStr → PyStr → Bool
  | [], _ => true
  | _ :: _, [] => false
  | a :: as, b :: bs => if a < b then true else if b < a then false else pyStrLe as bs

/-- Model of Python `sorted` on a list of strings. -/
def pySorted (l : List PyStr) : List PyStr := l.mergeSort pyStrLe

/-- Model of `text.splitlines()` followed by per-line processing:
split on the newline code point. -/
def splitLines (s : PyStr) : List PyStr := s.splitOn 10

/-! ## Data model: labelmap entries, categories, CSV rows -/

/-- One entry of `labelmap.json`. -/
structure LabelEntry where
  object_id : Int
  label_id : Int
  keyboard_shortcut : PyStr
  object_name : PyStr
deriving DecidableEq, Repr

/-- One COCO category as emitted by the exporter (the supercategory
field is the fixed literal string and is omitted from the model). -/
structure Category where
  id : Int
  name : PyStr
deriving DecidableEq, Repr

/-- A row of a per-image CSV as seen through `csv.DictReader` in
`parse_csv_boxes`: each referenced column either is present with a
string value or is absent from the header. -/
structure RawRow where
  x : Option PyStr
  y : Option PyStr
  width : Option PyStr
  height : Option PyStr
  label : Option PyStr
deriving DecidableEq, Repr

/-! ## reorganize_dataset.py -/

/-- Model of `convert_bbox_format` (lines 26-32): the corner form
`(xmin, ymin, xmax, ymax)` becomes `(x, y, width, height)`.  The
`float()` coercions of already-numeric CSV fields are idealized as
exact rationals. -/
def convert_bbox_format (xmin ymin xmax ymax : ℚ) : ℚ × ℚ × ℚ × ℚ :=
  (xmin, ymin, xmax - xmin, ymax - ymin)

/-- Model of `get_all_classes` (lines 14-24) applied to the combined
class columns of both CSV files: strip each value, keep the nonempty
non-numeric ones, collect into a set, and return them sorted. -/
def get_all_classes (classRows : List PyStr) : List PyStr :=
  pySorted (((classRows.map pyStrip).filter
    (fun c => !c.isEmpty && !pyIsDigit c)).dedup)

/-- The synthetic background entry prepended by `create_labelmap`. -/
def backgroundEntry : LabelEntry :=
  { object_id := 0, label_id := 0, keyboard_shortcut := [48],
    object_name := pyOfString "background" }

/-- The enumeration loop of `create_labelmap` (lines 117-124): one entry
per class, ids assigned consecutively from the start index, with the
object name lowercased and spaces replaced by underscores. -/
def labelEntriesFrom : List PyStr → Nat → List LabelEntry
  | [], _ => []
  | c :: cs, i =>
    { object_id := (i : Int), label_id := (i : Int),
      keyboard_shortcut := natDigits i,
      object_name := normalizeLabel c } :: labelEntriesFrom cs (i + 1)

/-- Model of `create_labelmap` (lines 104-129): a background entry at id
0 followed by the sorted classes numbered from 1. -/
def create_labelmap (classes : List PyStr) : List LabelEntry :=
  backgroundEntry :: labelEntriesFrom (pySorted classes) 1

/-- Model of the val/train carve-out in `create_sets_files`
(lines 184-188): sort the train stems, take the first fifth as val and
the rest as the redefined train list. -/
def create_sets_files (train_stems : List PyStr) : List PyStr × List PyStr :=
  let train_list := pySorted train_stems.dedup
  let val_size := train_list.length / 5
  (train_list.take val_size, train_list.drop val_size)

/-! ## convert_to_coco.py -/

/-- The four spellings registered for one labelmap name by
`load_labelmap` (lines 48-51), in insertion order. -/
def exporterVariants (name : PyStr) : List PyStr :=
  [name, underscoreToSpace name, pyTitle (underscoreToSpace name), pyTitle name]

/-- Model of `load_labelmap` (lines 36-53): for every non-background
entry, map each generated spelling of its name to its label id. -/
def load_labelmap (labelmap : List LabelEntry) : Table :=
  labelmap.foldl
    (fun t e =>
      if 0 < e.object_id then
        (exporterVariants e.object_name).foldl (fun t' v => pyInsert t' v e.label_id) t
      else t)
    []

/-- The label resolution block of `parse_csv_boxes` (lines 79-92): a
purely numeric label is its own id; otherwise look up the
lowercased/underscored normalization, and failing that scan all known
spellings case-insensitively, first match wins. -/
def resolveExporterLabel (t : Table) (label : PyStr) : Option Int :=
  if pyIsDigit label then some (pyIntOfDigits label)
  else
    match pyLookup t (normalizeLabel label) with
    | some v => some v
    | none => (t.find? (fun kv => pyLower kv.1 == pyLower label)).map Prod.snd

/-- A parsed box of `parse_csv_boxes`, before COCO ids are attached. -/
structure ParsedBox where
  x : ℚ
  y : ℚ
  w : ℚ
  h : ℚ
  category_id : Int
  area : ℚ
deriving DecidableEq, Repr

/-- Model of `float(...)` literal parsing on the plain decimal notation
occurring in the CSVs: optional surrounding whitespace, optional sign,
digits with at most one point; anything else raises ValueError (none). -/
def pyFloatParse (s : PyStr) : Option ℚ :=
  let t := pyStrip s
  let (sign, u) : ℚ × PyStr :=
    match t with
    | 43 :: r => (1, r)
    | 45 :: r => (-1, r)
    | r => (1, r)
  let ip := u.takeWhile (fun c => c ≠ 46)
  let rest := u.dropWhile (fun c => c ≠ 46)
  let digitsVal : PyStr → ℚ := fun d => ((pyIntOfDigits d : Int) : ℚ)
  match rest with
  | [] =>
    if ip ≠ [] ∧ ip.all isDigitChar then some (sign * digitsVal ip) else none
  | 46 :: fp =>
    if ip.all isDigitChar ∧ fp.all isDigitChar ∧ (ip ≠ [] ∨ fp ≠ []) then
      some (sign * (digitsVal ip + digitsVal fp / (10 : ℚ) ^ fp.length))
    else none
  | _ => none

/-- Model of `float(row.get(key, 0))`: a missing column yields 0,
otherwise the field string must parse. -/
def getFloatField (f : Option PyStr) : Option ℚ :=
  match f with
  | none => some 0
  | some s => pyFloatParse s

/-- The per-row body of `parse_csv_boxes` (lines 67-107): rows whose
numeric fields fail to parse or whose label does not resolve are
dropped; the area is computed as width times height. -/
def parseRow (t : Table) (r : RawRow) : Option ParsedBox :=
  match getFloatField r.x, getFloatField r.y, getFloatField r.width, getFloatField r.height with
  | some x, some y, some w, some h =>
    match resolveExporterLabel t (pyStrip (r.label.getD [])) with
    | some cid => some { x := x, y := y, w := w, h := h, category_id := cid, area := w * h }
    | none => none
  | _, _, _, _ => none

/-- Model of `parse_csv_boxes` on the rows of one per-image CSV file. -/
def parse_csv_boxes (t : Table) (rows : List RawRow) : List ParsedBox :=
  rows.filterMap (parseRow t)

/-- Model of `read_split_list` (lines 22-27): an absent file yields no
stems; otherwise the stripped lines with blank lines removed. -/
def read_split_list (content : Option PyStr) : List PyStr :=
  match content with
  | none => []
  | some text => ((splitLines text).map pyStrip).filter (fun l => !l.isEmpty)

/-- An images directory: full file names paired with the pixel
dimensions PIL would report. -/
abbrev ImagesDir := List (PyStr × Nat × Nat)

/-- A csv directory: per-image CSV files keyed by image stem, already
split into DictReader rows. -/
abbrev CsvDir := List (PyStr × List RawRow)

/-- Lookup of a file in a directory listing by exact name. -/
def dirLookup {β : Type} (d : List (PyStr × β)) (name : PyStr) : Option β :=
  (d.find? (fun f => f.1 == name)).map Prod.snd

/-- The extension probe of the collection loop (lines 158-163): try
`.jpg`, `.jpeg`, `.png` in that order and return the first name that
exists, with its dimensions. -/
def findImage (dir : ImagesDir) (stem : PyStr) : Option (PyStr × Nat × Nat) :=
  match (([46, 106, 112, 103], [46, 106, 112, 101, 103], [46, 112, 110, 103]) :
      PyStr × PyStr × PyStr) with
  | (jpg, jpeg, png) =>
    match dirLookup dir (stem ++ jpg) with
    | some wh => some (stem ++ jpg, wh)
    | none =>
      match dirLookup dir (stem ++ jpeg) with
      | some wh => some (stem ++ jpeg, wh)
      | none =>
        match dirLookup dir (stem ++ png) with
        | some wh => some (stem ++ png, wh)
        | none => none

/-- Model of `pathlib.Path.stem`: the file name without its last
dot-suffix, where a leading dot alone does not start a suffix. -/
def pyStem (name : PyStr) : PyStr :=
  match (name.reverse.takeWhile (fun c => c ≠ 46)).length with
  | fplen =>
    if fplen = name.length ∨ fplen + 1 = name.length then name
    else name.take (name.length - fplen - 1)

/-- The fallback directory scan (lines 146-148): stems of every file
matching `*.jpg`, `*.jpeg` or `*.png` in the images directory. -/
def globStems (dir : ImagesDir) : List PyStr :=
  ((dir.map Prod.fst).filter (fun f => List.isSuffixOf [46, 106, 112, 103] f)).map pyStem
  ++ ((dir.map Prod.fst).filter (fun f => List.isSuffixOf [46, 106, 112, 101, 103] f)).map pyStem
  ++ ((dir.map Prod.fst).filter (fun f => List.isSuffixOf [46, 112, 110, 103] f)).map pyStem

/-- The stem-set determination of `collect_annotations_for_split`
(lines 141-148): the split file stems, or the full directory scan when
the split file is absent or lists nothing. -/
def stemsForSplit (content : Option PyStr) (dir : ImagesDir) : List PyStr :=
  let fromFile := read_split_list content
  if fromFile.isEmpty then globStems dir else fromFile

/-- One COCO image record as built by the collection loop. -/
structure CocoImage where
  id : Nat
  file_name : PyStr
  width : Nat
  height : Nat
deriving DecidableEq, Repr

/-- One COCO annotation record as built by the collection loop. -/
structure CocoAnn where
  id : Nat
  image_id : Nat
  category_id : Int
  bbox : ℚ × ℚ × ℚ × ℚ
  area : ℚ
  iscrowd : Nat
deriving DecidableEq, Repr

/-- The inner annotation loop (lines 183-192): attach consecutive
annotation ids starting from the running counter. -/
def numberBoxes (imageId : Nat) : List ParsedBox → Nat → List CocoAnn
  | [], _ => []
  | b :: bs, annId =>
    { id := annId, image_id := imageId, category_id := b.category_id,
      bbox := (b.x, b.y, b.w, b.h), area := b.area, iscrowd := 0 }
      :: numberBoxes imageId bs (annId + 1)

/-- The per-stem collection loop (lines 156-194), with the two running
counters made explicit: stems without an image file are skipped and
consume no id; each kept image gets the next image id and its parsed
boxes get consecutive global annotation ids. -/
def collectLoop (t : Table) (dirI : ImagesDir) (dirC : CsvDir) :
    List PyStr → Nat → Nat → List CocoImage × List CocoAnn
  | [], _, _ => ([], [])
  | s :: ss, imageId, annId =>
    match findImage dirI s with
    | none => collectLoop t dirI dirC ss imageId annId
    | some (fname, w, h) =>
      let boxes := parse_csv_boxes t ((dirLookup dirC s).getD [])
      let rest := collectLoop t dirI dirC ss (imageId + 1) (annId + boxes.length)
      ({ id := imageId, file_name := fname, width := w, height := h } :: rest.1,
        numberBoxes imageId boxes annId ++ rest.2)

/-- The category derivation of `collect_annotations_for_split`
(lines 131-138): every labelmap entry with positive object id, in
order. -/
def categoriesFromLabelmap (labelmap : List LabelEntry) : List Category :=
  (labelmap.filter (fun e => decide (0 < e.object_id))).map
    (fun e => { id := e.label_id, name := e.object_name })

/-- Model of `collect_annotations_for_split` (lines 112-196). -/
def collect_annotations_for_split (labelmap : List LabelEntry) (dirI : ImagesDir)
    (dirC : CsvDir) (content : Option PyStr) :
    List CocoImage × List CocoAnn × List Category :=
  let t := load_labelmap labelmap
  let stems := pySorted (stemsForSplit content dirI).dedup
  let res := collectLoop t dirI dirC stems 1 1
  (res.1, res.2, categoriesFromLabelmap labelmap)

/-- Messages printed by the collection loop of
`collect_annotations_for_split` (lines 150-196): the loop body contains
no print or logging statement, so in particular a stem whose image file
is missing is skipped by the bare `continue` at line 166 without any
message being emitted. -/
def collectLoopMessages (_labelmap : List LabelEntry) (_dirI : ImagesDir)
    (_dirC : CsvDir) (_content : Option PyStr) : List PyStr := []

/-! ## update_csv_labels.py -/

/-- The spelling variations registered for one labelmap name by
`update_csv_labels` (lines 38-54), in insertion order: the five general
casings, then three more with a detached final word when the name ends
in the suffix underscore-leaf. -/
def updaterVariants (name : PyStr) : List PyStr :=
  [name,
   underscoreToSpace name,
   pyTitle (underscoreToSpace name),
   pyTitle name,
   pyCapitalize (underscoreToSpace name)]
  ++ (if List.isSuffixOf [95, 108, 101, 97, 102] name then
        match name.take (name.length - 5) with
        | base =>
          [underscoreToSpace base ++ [32, 108, 101, 97, 102],
           pyTitle (underscoreToSpace base) ++ [32, 108, 101, 97, 102],
           pyTitle base ++ [32, 108, 101, 97, 102]]
      else [])

/-- The first table-building pass of `update_csv_labels` (lines 33-57):
for every non-background entry, map each generated variation to its
label id. -/
def updaterVariantPass (labelmap : List LabelEntry) : Table :=
  labelmap.foldl
    (fun t e =>
      if 0 < e.object_id then
        (updaterVariants e.object_name).foldl (fun t' v => pyInsert t' v e.label_id) t
      else t)
    []

/-- The original-class set of `update_csv_labels` (lines 20-30): the
stripped, nonempty, non-numeric class column values of the two flat
CSVs. -/
def originalClasses (classRows : List PyStr) : List PyStr :=
  ((classRows.map pyStrip).filter (fun c => !c.isEmpty && !pyIsDigit c)).dedup

/-- The second table-building pass of `update_csv_labels`
(lines 59-74): for each original class spelling, first assign the label
id of the first labelmap entry whose object name equals its
normalization, and if the spelling is still not a key, assign the value
of the first case-insensitive match among the known keys. -/
def origStep (labelmap : List LabelEntry) (t : Table) (oc : PyStr) : Table :=
  let t1 :=
    match labelmap.find?
        (fun item => decide (0 < item.object_id) &&
          item.object_name == normalizeLabel oc) with
    | some item => pyInsert t oc item.label_id
    | none => t
  if (pyLookup t1 oc).isSome then t1
  else
    match t1.find? (fun kv => pyLower kv.1 == pyLower oc) with
    | some kv => pyInsert t1 oc kv.2
    | none => t1

/-- The iteration of `origStep` over all original class spellings
(lines 60-74). -/
def updaterOrigPass (labelmap : List LabelEntry) (t : Table)
    (origs : List PyStr) : Table :=
  origs.foldl (origStep labelmap) t

/-- The full class-to-id table built by `update_csv_labels`
(lines 18-74) from the labelmap and the class columns of the original
flat CSVs. -/
def buildUpdaterTable (labelmap : List LabelEntry) (classRows : List PyStr) : Table :=
  updaterOrigPass labelmap (updaterVariantPass labelmap) (originalClasses classRows)

/-- The per-row label resolution of `update_csv_labels` (lines 93-101):
an exact key match, then a case-insensitive scan over the known keys,
first match wins. -/
def resolveUpdaterLabel (t : Table) (class_name : PyStr) : Option Int :=
  match pyLookup t class_name with
  | some v => some v
  | none => (t.find? (fun kv => pyLower kv.1 == pyLower class_name)).map Prod.snd

/-- The per-row rewrite of `update_csv_labels` (lines 87-109): rows with
at least six columns have their sixth column replaced by the resolved
id; the flag records whether a resolution happened. -/
def updateRow (t : Table) (row : List PyStr) : List PyStr × Bool :=
  if 6 ≤ row.length then
    match resolveUpdaterLabel t (pyStrip (row.getD 5 [])) with
    | some v => (row.set 5 (intStr v), true)
    | none => (row, false)
  else (row, false)

/-- The per-file body of `update_csv_labels` (lines 78-116): the header
is kept, every data row is processed, and the file is rewritten only
when at least one row resolved; `none` means the file is left
untouched. -/
def update_csv_labels (t : Table) (header : List PyStr)
    (body : List (List PyStr)) : Option (List (List PyStr)) :=
  let processed := body.map (updateRow t)
  if processed.any Prod.snd then some (header :: processed.map Prod.fst) else none

/-- A concrete labelmap used by the sanity checks and witnesses below:
the background entry plus one plant class. -/
def lmBell : List LabelEntry :=
  [backgroundEntry,
   { object_id := 1, label_id := 1, keyboard_shortcut := [49],
     object_name := pyOfString "bell_pepper_leaf" }]

/-! ## Specification-side definitions -/

/-- First successful step of an ordered list of resolution attempts:
an earlier step that produces a value always wins. -/
def firstSome : List (Option Int) → Option Int
  | [] => none
  | some v :: _ => some v
  | none :: rest => firstSome rest

/-- The ordered resolution steps actually taken by the exporter: the
numeric fast path, the normalized table lookup, then the
case-insensitive scan. -/
def exporterResolutionSteps (t : Table) (label : PyStr) : List (Option Int) :=
  [if pyIsDigit label then some (pyIntOfDigits label) else none,
   pyLookup t (normalizeLabel label),
   (t.find? (fun kv => pyLower kv.1 == pyLower label)).map Prod.snd]

/-- The ordered resolution steps actually taken by the label updater:
the exact table lookup, then the case-insensitive scan; there is no
numeric fast path and no separate normalization step. -/
def updaterResolutionSteps (t : Table) (class_name : PyStr) : List (Option Int) :=
  [pyLookup t class_name,
   (t.find? (fun kv => pyLower kv.1 == pyLower class_name)).map Prod.snd]

/-- A code point that may occur in a canonical labelmap name: lowercase
ASCII letter, underscore, or digit. -/
def canonChar (c : Nat) : Bool := (97 ≤ c && c ≤ 122) || c == 95 || (48 ≤ c && c ≤ 57)

/-- A canonical labelmap object name in the sense of the data model:
lowercase and underscore-separated (hence space-free), and not itself a
pure digit string. -/
def isCanonicalName (s : PyStr) : Bool := s.all canonChar && !pyIsDigit s

/-- A labelmap whose second entry carries the non-canonical object name
with a space and capitals; used to exhibit the divergence between an
exact table match and the normalized lookup in the exporter. -/
def lmAB : List LabelEntry :=
  [{ object_id := 1, label_id := 1, keyboard_shortcut := [49],
     object_name := pyOfString "a_b" },
   { object_id := 2, label_id := 2, keyboard_shortcut := [50],
     object_name := pyOfString "A B" }]

/-! ## Shared helper lemmas -/

theorem pyLookup_pyInsert : ∀ (t : Table) (k : PyStr) (v : Int) (k' : PyStr),
    pyLookup (pyInsert t k v) k' = if k' = k then some v else pyLookup t k'
  | [], k, v, k' => by
    simp only [pyInsert, pyLookup]
    by_cases h : k = k'
    · subst h
      simp
    · rw [if_neg h, if_neg (fun hh : k' = k => h hh.symm)]
  | (pk, pv) :: rest, k, v, k' => by
    simp only [pyInsert]
    by_cases h1 : pk = k
    · subst h1
      rw [if_pos rfl]
      simp only [pyLookup]
      by_cases h2 : pk = k'
      · subst h2
        simp
      · rw [if_neg h2, if_neg (fun hh : k' = pk => h2 hh.symm), if_neg h2]
    · rw [if_neg h1]
      simp only [pyLookup]
      by_cases h2 : pk = k'
      · subst h2
        rw [if_pos rfl, if_neg (fun hh : pk = k => h1 hh), if_pos rfl]
      · rw [if_neg h2, pyLookup_pyInsert rest k v k', if_neg h2]

theorem mem_pyInsert {t : Table} {k : PyStr} {v : Int} {p : PyStr × Int}
    (h : p ∈ pyInsert t k v) : p = (k, v) ∨ p ∈ t := by
  induction t with
  | nil => simpa [pyInsert] using h
  | cons q rest ih =>
    obtain ⟨qk, qv⟩ := q
    by_cases h1 : qk = k
    · subst h1
      rcases (by simpa [pyInsert] using h : p = (qk, v) ∨ p ∈ rest) with h2 | h2
      · exact Or.inl h2
      · exact Or.inr (List.mem_cons_of_mem _ h2)
    · rcases (by simpa [pyInsert, h1] using h : p = (qk, qv) ∨ p ∈ pyInsert rest k v)
        with h2 | h2
      · exact Or.inr (by simp [h2])
      · rcases ih h2 with h3 | h3
        · exact Or.inl h3
        · exact Or.inr (List.mem_cons_of_mem _ h3)

theorem pyLookup_some_mem {t : Table} {k : PyStr} {v : Int}
    (h : pyLookup t k = some v) : (k, v) ∈ t := by
  induction t with
  | nil => simp [pyLookup] at h
  | cons q rest ih =>
    obtain ⟨qk, qv⟩ := q
    by_cases h1 : qk = k
    · subst h1
      simp [pyLookup] at h
      simp [h]
    · simp [pyLookup, h1] at h
      exact List.mem_cons_of_mem _ (ih h)

theorem pyLookup_eq_none {t : Table} {k : PyStr}
    (h : ∀ p ∈ t, p.1 ≠ k) : pyLookup t k = none := by
  induction t with
  | nil => rfl
  | cons q rest ih =>
    have hq : q.1 ≠ k := h q (List.mem_cons_self _ _)
    obtain ⟨qk, qv⟩ := q
    simp only [pyLookup]
    rw [if_neg hq]
    exact ih fun p hp => h p (List.mem_cons_of_mem _ hp)

/-! ## C2 -/

/-- C2: `convert_bbox_format` maps corners `(xmin, ymin, xmax, ymax)` to
`(xmin, ymin, xmax - xmin, ymax - ymin)`, re-deriving `(x + w, y + h)`
reproduces `(xmax, ymax)` exactly, and `(10, 20, 50, 80)` converts to
`(10, 20, 40, 60)`. -/
theorem convert_bbox_format_roundtrip :
    (∀ xmin ymin xmax ymax : ℚ,
      convert_bbox_format xmin ymin xmax ymax = (xmin, ymin, xmax - xmin, ymax - ymin)
      ∧ (convert_bbox_format xmin ymin xmax ymax).1
          + (convert_bbox_format xmin ymin xmax ymax).2.2.1 = xmax
      ∧ (convert_bbox_format xmin ymin xmax ymax).2.1
          + (convert_bbox_format xmin ymin xmax ymax).2.2.2 = ymax)
    ∧ convert_bbox_format 10 20 50 80 = (10, 20, 40, 60) := by
  refine ⟨fun xmin ymin xmax ymax => ⟨rfl, ?_, ?_⟩, ?_⟩
  · simp [convert_bbox_format]
  · simp [convert_bbox_format]
  · norm_num [convert_bbox_format]

/-! ## C10 -/

/-- C10: in `parse_csv_boxes`, a row whose label field is a pure digit
string is accepted with `category_id = int(label)` for every table,
with no check that the id occurs in the labelmap or the exported
categories. -/
theorem digit_label_bypasses_labelmap (t : Table) (r : RawRow) (x y w h : ℚ)
    (hx : getFloatField r.x = some x) (hy : getFloatField r.y = some y)
    (hw : getFloatField r.width = some w) (hh : getFloatField r.height = some h)
    (hd : pyIsDigit (pyStrip (r.label.getD [])) = true) :
    parseRow t r = some ⟨x, y, w, h, pyIntOfDigits (pyStrip (r.label.getD [])), w * h⟩ := by
  unfold parseRow resolveExporterLabel
  rw [hx, hy, hw, hh, hd]
  simp

/-- Witness for C10: the label `0` is accepted against the concrete
labelmap with a single class at id 1; the resulting annotation carries
the reserved background id 0, which is the id of no exported
category. -/
theorem digit_label_bypasses_labelmap_witness :
    parseRow (load_labelmap lmBell)
      { x := some [53], y := some [53], width := some [49, 48],
        height := some [49, 48], label := some [48] }
      = some ⟨5, 5, 10, 10, 0, 100⟩
    ∧ ∀ c ∈ categoriesFromLabelmap lmBell, c.id ≠ 0 := by
  constructor
  · have hf5 : getFloatField (some [53]) = some 5 := by
      norm_num [getFloatField, pyFloatParse, pyStrip, pyIntOfDigits, isSpaceChar, isDigitChar]
    have hf10 : getFloatField (some [49, 48]) = some 10 := by
      norm_num [getFloatField, pyFloatParse, pyStrip, pyIntOfDigits, isSpaceChar, isDigitChar]
      simp
    have h100 : (10 : ℚ) * 10 = 100 := by norm_num
    have := digit_label_bypasses_labelmap (load_labelmap lmBell)
      ⟨some [53], some [53], some [49, 48], some [49, 48], some [48]⟩
      5 5 10 10 hf5 hf5 hf10 hf10 (by decide)
    rw [this, h100]
    rfl
  · decide

/-! ## C1 -/

/-- C1 (corrected): each resolver tries its steps in order with an
earlier successful step always winning, but the step lists differ from
the claimed common one: the exporter tries numeric fast path, then the
normalized lookup, then the case-insensitive scan (no exact-match
step); the updater tries the exact lookup, then the case-insensitive
scan (no numeric fast path and no normalization step). -/
theorem resolver_step_order (t : Table) (label : PyStr) :
    resolveExporterLabel t label = firstSome (exporterResolutionSteps t label)
    ∧ resolveUpdaterLabel t label = firstSome (updaterResolutionSteps t label) := by
  constructor
  · unfold resolveExporterLabel exporterResolutionSteps
    by_cases hd : pyIsDigit label
    · simp [hd, firstSome]
    · simp only [hd, if_neg, Bool.false_eq_true, if_false]
      cases hl : pyLookup t (normalizeLabel label) with
      | some v => simp [firstSome]
      | none =>
        cases hf : (t.find? (fun kv => pyLower kv.1 == pyLower label)).map Prod.snd with
        | some v => simp [firstSome]
        | none => simp [firstSome]
  · unfold resolveUpdaterLabel updaterResolutionSteps
    cases hl : pyLookup t label with
    | some v => simp [firstSome]
    | none =>
      cases hf : (t.find? (fun kv => pyLower kv.1 == pyLower label)).map Prod.snd with
      | some v => simp [firstSome]
      | none => simp [firstSome]

/-- Counterexample for C1 as stated: the updater resolver leaves the
numeric label `7` unresolved instead of using its integer value, and on
a labelmap realizing an exact-key/normalized-key conflict the exporter
returns the normalized match (id 1) where the claimed order would
return the exact variant match (id 2, the value stored under the exact
key). -/
theorem resolver_step_order_counterexample :
    resolveUpdaterLabel (buildUpdaterTable lmBell []) [55] = none
    ∧ pyIsDigit [55] = true
    ∧ resolveExporterLabel (load_labelmap lmAB) (pyOfString "A B") = some 1
    ∧ pyLookup (load_labelmap lmAB) (pyOfString "A B") = some 2 := by
  refine ⟨by decide, by decide, by decide, by decide⟩

/-! ## C9 -/

/-- C9: the exporter falls back to scanning the images directory for
`*.jpg`, `*.jpeg` and `*.png` stems exactly when the split file is
absent or lists no non-blank line; otherwise the stem set is exactly
the non-blank stripped lines of the split file. -/
theorem split_fallback_spec (content : Option PyStr) (dir : ImagesDir) :
    (read_split_list content = [] ↔
      content = none ∨ ∃ text, content = some text ∧
        ∀ line ∈ splitLines text, pyStrip line = [])
    ∧ (read_split_list content = [] → stemsForSplit content dir = globStems dir)
    ∧ (read_split_list content ≠ [] → stemsForSplit content dir = read_split_list content)
    ∧ (∀ text, content = some text →
        ∀ s, s ∈ read_split_list content ↔
          (∃ line ∈ splitLines text, pyStrip line = s) ∧ s ≠ [])
    ∧ (∀ s, s ∈ globStems dir ↔
        ∃ f ∈ dir.map Prod.fst,
          (List.isSuffixOf [46, 106, 112, 103] f ∨ List.isSuffixOf [46, 106, 112, 101, 103] f
            ∨ List.isSuffixOf [46, 112, 110, 103] f) ∧ pyStem f = s) := by
  refine ⟨?_, ?_, ?_, ?_, ?_⟩
  · cases content with
    | none => simp [read_split_list]
    | some text => simp [read_split_list, List.filter_eq_nil_iff]
  · intro h
    simp [stemsForSplit, h]
  · intro h
    simp [stemsForSplit, List.isEmpty_iff, h]
  · intro text h s
    subst h
    simp only [read_split_list, List.mem_filter, List.mem_map]
    constructor
    · rintro ⟨⟨line, hline, hstrip⟩, hne⟩
      exact ⟨⟨line, hline, hstrip⟩, by simpa using hne⟩
    · rintro ⟨⟨line, hline, hstrip⟩, hne⟩
      exact ⟨⟨line, hline, hstrip⟩, by simpa using hne⟩
  · intro s
    simp only [globStems, List.mem_append, List.mem_map, List.mem_filter]
    constructor
    · rintro ((⟨f, ⟨hf, hsuf⟩, hstem⟩ | ⟨f, ⟨hf, hsuf⟩, hstem⟩) | ⟨f, ⟨hf, hsuf⟩, hstem⟩)
      · exact ⟨f, hf, Or.inl hsuf, hstem⟩
      · exact ⟨f, hf, Or.inr (Or.inl hsuf), hstem⟩
      · exact ⟨f, hf, Or.inr (Or.inr hsuf), hstem⟩
    · rintro ⟨f, hf, hsuf | hsuf | hsuf, hstem⟩
      · exact Or.inl (Or.inl ⟨f, ⟨hf, hsuf⟩, hstem⟩)
      · exact Or.inl (Or.inr ⟨f, ⟨hf, hsuf⟩, hstem⟩)
      · exact Or.inr ⟨f, ⟨hf, hsuf⟩, hstem⟩

/-- Witness for C9: a split file containing only blank lines triggers
the fallback directory scan against a one-image directory. -/
theorem split_fallback_spec_witness :
    stemsForSplit (some [10, 32, 10]) [(pyOfString "a.jpg", 3, 4)]
      = globStems [(pyOfString "a.jpg", 3, 4)] :=
  (split_fallback_spec (some [10, 32, 10]) [(pyOfString "a.jpg", 3, 4)]).2.1 (by decide)

/-! ## C3 -/

theorem pyStrLe_total : ∀ a b : PyStr, pyStrLe a b || pyStrLe b a
  | [], b => by simp [pyStrLe]
  | a :: as, [] => by simp [pyStrLe]
  | a :: as, b :: bs => by
    simp only [pyStrLe]
    rcases Nat.lt_trichotomy a b with h | h | h
    · simp [h]
    · subst h
      simpa [Nat.lt_irrefl] using pyStrLe_total as bs
    · simp [h, Nat.lt_asymm h]

theorem pyStrLe_trans : ∀ a b c : PyStr, pyStrLe a b → pyStrLe b c → pyStrLe a c
  | [], _, _ => by simp [pyStrLe]
  | a :: as, [], c => by simp [pyStrLe]
  | a :: as, b :: bs, [] => by simp [pyStrLe]
  | a :: as, b :: bs, c :: cs => by
    simp only [pyStrLe]
    intro h1 h2
    rcases Nat.lt_trichotomy a b with hab | hab | hab
    · rcases Nat.lt_trichotomy b c with hbc | hbc | hbc
      · simp [Nat.lt_trans hab hbc]
      · subst hbc
        simp [hab]
      · simp [Nat.lt_asymm hbc, hbc] at h2
    · subst hab
      rcases Nat.lt_trichotomy a c with hac | hac | hac
      · simp [hac]
      · subst hac
        simp only [Nat.lt_irrefl, if_false] at h1 h2 ⊢
        exact pyStrLe_trans as bs cs h1 h2
      · simp [Nat.lt_asymm hac, hac] at h2
    · simp [Nat.lt_asymm hab, hab] at h1

/-- C3: the val/train carve-out of `create_sets_files` is a disjoint
partition of the input stem set, val is exactly the first fifth of the
lexicographically sorted distinct stems, train is the rest, and the
sorted list is deterministic (sorted, duplicate-free). -/
theorem val_train_split_partition (train_stems : List PyStr) :
    (create_sets_files train_stems).1.Disjoint (create_sets_files train_stems).2
    ∧ (∀ s, (s ∈ (create_sets_files train_stems).1 ∨ s ∈ (create_sets_files train_stems).2)
        ↔ s ∈ train_stems)
    ∧ (create_sets_files train_stems).1
        = (pySorted train_stems.dedup).take ((pySorted train_stems.dedup).length / 5)
    ∧ (create_sets_files train_stems).2
        = (pySorted train_stems.dedup).drop ((pySorted train_stems.dedup).length / 5)
    ∧ (pySorted train_stems.dedup).Pairwise (fun a b => pyStrLe a b = true)
    ∧ (pySorted train_stems.dedup).Nodup := by
  have hperm : List.Perm (pySorted train_stems.dedup) train_stems.dedup :=
    List.mergeSort_perm train_stems.dedup pyStrLe
  have hnd : (pySorted train_stems.dedup).Nodup :=
    hperm.symm.nodup (List.nodup_dedup train_stems)
  refine ⟨List.disjoint_take_drop hnd (Nat.le_refl _), ?_, rfl, rfl, ?_, hnd⟩
  · intro s
    have hsplit : (s ∈ (pySorted train_stems.dedup).take ((pySorted train_stems.dedup).length / 5)
        ∨ s ∈ (pySorted train_stems.dedup).drop ((pySorted train_stems.dedup).length / 5))
        ↔ s ∈ pySorted train_stems.dedup := by
      rw [← List.mem_append, List.take_append_drop]
    refine hsplit.trans ?_
    rw [hperm.mem_iff, List.mem_dedup]
  · exact List.sorted_mergeSort pyStrLe_trans pyStrLe_total train_stems.dedup

/-- Witness for C3 at a concrete stem list. -/
theorem val_train_split_partition_witness :
    (create_sets_files [pyOfString "b", pyOfString "a"]).1.Disjoint
      (create_sets_files [pyOfString "b", pyOfString "a"]).2 :=
  (val_train_split_partition [pyOfString "b", pyOfString "a"]).1

/-! ## C4 -/

theorem labelEntriesFrom_names : ∀ (cs : List PyStr) (i : Nat),
    (labelEntriesFrom cs i).map LabelEntry.object_name = cs.map normalizeLabel
  | [], _ => rfl
  | c :: cs, i => by
    simp [labelEntriesFrom, labelEntriesFrom_names cs (i + 1)]

theorem labelEntriesFrom_label_ids : ∀ (cs : List PyStr) (i : Nat),
    (labelEntriesFrom cs i).map LabelEntry.label_id
      = (List.range' i cs.length).map Int.ofNat
  | [], _ => rfl
  | c :: cs, i => by
    simp [labelEntriesFrom, List.range', labelEntriesFrom_label_ids cs (i + 1)]

theorem labelEntriesFrom_mem : ∀ (cs : List PyStr) (i : Nat) (e : LabelEntry),
    e ∈ labelEntriesFrom cs i → e.object_id = e.label_id ∧ (i : Int) ≤ e.object_id
  | [], _, e => by simp [labelEntriesFrom]
  | c :: cs, i, e => by
    intro h
    rcases (by simpa [labelEntriesFrom] using h :
        e = ({ object_id := (i : Int), label_id := (i : Int),
               keyboard_shortcut := natDigits i,
               object_name := normalizeLabel c } : LabelEntry)
          ∨ e ∈ labelEntriesFrom cs (i + 1)) with h1 | h1
    · subst h1
      exact ⟨rfl, le_refl _⟩
    · obtain ⟨h2, h3⟩ := labelEntriesFrom_mem cs (i + 1) e h1
      refine ⟨h2, ?_⟩
      have : ((i : Int) + 1) ≤ e.object_id := by exact_mod_cast h3
      omega

theorem get_all_classes_sorted (classRows : List PyStr) :
    (get_all_classes classRows).Pairwise (fun a b => pyStrLe a b = true) :=
  List.sorted_mergeSort pyStrLe_trans pyStrLe_total _

theorem pySorted_get_all_classes (classRows : List PyStr) :
    pySorted (get_all_classes classRows) = get_all_classes classRows :=
  List.mergeSort_of_sorted (get_all_classes_sorted classRows)

/-- C4: the labelmap is a background entry with both ids 0 followed by
one entry per distinct stripped non-numeric class name in
lexicographically sorted order, ids 1..N in that order, names
normalized to lowercase with underscores; the exported categories are
exactly the entries with positive object id, in order. -/
theorem labelmap_and_categories_structure (classRows : List PyStr) :
    (create_labelmap (get_all_classes classRows)).head? = some backgroundEntry
    ∧ backgroundEntry.object_id = 0 ∧ backgroundEntry.label_id = 0
    ∧ ((create_labelmap (get_all_classes classRows)).drop 1).map LabelEntry.object_name
        = (get_all_classes classRows).map normalizeLabel
    ∧ ((create_labelmap (get_all_classes classRows)).drop 1).map LabelEntry.label_id
        = (List.range' 1 (get_all_classes classRows).length).map Int.ofNat
    ∧ (∀ e ∈ (create_labelmap (get_all_classes classRows)).drop 1,
        e.object_id = e.label_id ∧ 0 < e.object_id)
    ∧ (∀ x, x ∈ get_all_classes classRows ↔
        (∃ r ∈ classRows, pyStrip r = x) ∧ x ≠ [] ∧ pyIsDigit x = false)
    ∧ (get_all_classes classRows).Pairwise (fun a b => pyStrLe a b = true)
    ∧ (get_all_classes classRows).Nodup
    ∧ categoriesFromLabelmap (create_labelmap (get_all_classes classRows))
        = ((create_labelmap (get_all_classes classRows)).drop 1).map
            (fun e => ⟨e.label_id, e.object_name⟩) := by
  have hidem := pySorted_get_all_classes classRows
  have hdrop : (create_labelmap (get_all_classes classRows)).drop 1
      = labelEntriesFrom (get_all_classes classRows) 1 := by
    simp [create_labelmap, hidem]
  have hmem : ∀ e ∈ (create_labelmap (get_all_classes classRows)).drop 1,
      e.object_id = e.label_id ∧ 0 < e.object_id := by
    intro e he
    rw [hdrop] at he
    obtain ⟨h1, h2⟩ := labelEntriesFrom_mem _ _ _ he
    exact ⟨h1, by omega⟩
  refine ⟨rfl, rfl, rfl, ?_, ?_, hmem, ?_, get_all_classes_sorted classRows, ?_, ?_⟩
  · rw [hdrop, labelEntriesFrom_names]
  · rw [hdrop, labelEntriesFrom_label_ids]
  · intro x
    simp only [get_all_classes, pySorted, List.mem_mergeSort, List.mem_dedup,
      List.mem_filter, List.mem_map, Bool.and_eq_true, Bool.not_eq_true']
    constructor
    · rintro ⟨⟨r, hr, hs⟩, hne, hnd⟩
      refine ⟨⟨r, hr, hs⟩, ?_, hnd⟩
      simpa using hne
    · rintro ⟨⟨r, hr, hs⟩, hne, hnd⟩
      refine ⟨⟨r, hr, hs⟩, ?_, hnd⟩
      simpa using hne
  · exact ((List.mergeSort_perm _ pyStrLe).symm.nodup (List.nodup_dedup _))
  · rw [show create_labelmap (get_all_classes classRows)
        = backgroundEntry :: labelEntriesFrom (get_all_classes classRows) 1 by
      simp [create_labelmap, hidem]]
    have hbg : (decide (0 < backgroundEntry.object_id)) = false := by decide
    have hall : ∀ e ∈ labelEntriesFrom (get_all_classes classRows) 1,
        decide (0 < e.object_id) = true := by
      intro e he
      obtain ⟨-, h2⟩ := labelEntriesFrom_mem _ _ _ he
      simp only [decide_eq_true_eq]
      omega
    simp [categoriesFromLabelmap, List.filter_cons, hbg, List.filter_eq_self.mpr hall]

/-- Witness for C4 at a concrete pair of class rows. -/
theorem labelmap_and_categories_structure_witness :
    (create_labelmap (get_all_classes [pyOfString " Rust Leaf ", pyOfString "3"])).head?
      = some backgroundEntry :=
  (labelmap_and_categories_structure [pyOfString " Rust Leaf ", pyOfString "3"]).1

/-! ## C7 -/

theorem numberBoxes_ids (imageId : Nat) : ∀ (bs : List ParsedBox) (a : Nat),
    (numberBoxes imageId bs a).map CocoAnn.id = List.range' a bs.length
  | [], _ => rfl
  | b :: bs, a => by
    simp [numberBoxes, List.range', numberBoxes_ids imageId bs (a + 1)]

theorem numberBoxes_length (imageId : Nat) (bs : List ParsedBox) (a : Nat) :
    (numberBoxes imageId bs a).length = bs.length := by
  have h := congrArg List.length (numberBoxes_ids imageId bs a)
  simpa using h

theorem numberBoxes_mem (imageId : Nat) : ∀ (bs : List ParsedBox) (a : Nat),
    ∀ ann ∈ numberBoxes imageId bs a,
      ∃ b ∈ bs, ann.area = b.area ∧ ann.bbox = (b.x, b.y, b.w, b.h)
  | [], _, ann => by simp [numberBoxes]
  | b :: bs, a, ann => by
    intro h
    rcases (by simpa [numberBoxes] using h :
        ann = ({ id := a, image_id := imageId, category_id := b.category_id,
                 bbox := (b.x, b.y, b.w, b.h), area := b.area, iscrowd := 0 } : CocoAnn)
          ∨ ann ∈ numberBoxes imageId bs (a + 1)) with h1 | h1
    · subst h1
      exact ⟨b, List.mem_cons_self _ _, rfl, rfl⟩
    · obtain ⟨b', hb', h2⟩ := numberBoxes_mem imageId bs (a + 1) ann h1
      exact ⟨b', List.mem_cons_of_mem _ hb', h2⟩

theorem parse_csv_boxes_area (t : Table) (rows : List RawRow) :
    ∀ b ∈ parse_csv_boxes t rows, b.area = b.w * b.h := by
  intro b hb
  obtain ⟨r, hr, hpr⟩ := List.mem_filterMap.mp hb
  unfold parseRow at hpr
  split at hpr
  · split at hpr
    · cases hpr
      rfl
    · cases hpr
  · cases hpr

theorem collectLoop_spec (t : Table) (dirI : ImagesDir) (dirC : CsvDir) :
    ∀ (ss : List PyStr) (i a : Nat),
      ((collectLoop t dirI dirC ss i a).1.map CocoImage.id
        = List.range' i ((ss.filter (fun s => (findImage dirI s).isSome)).length))
      ∧ ((collectLoop t dirI dirC ss i a).1.map CocoImage.file_name
        = ss.filterMap (fun s => (findImage dirI s).map Prod.fst))
      ∧ ((collectLoop t dirI dirC ss i a).2.map CocoAnn.id
        = List.range' a (collectLoop t dirI dirC ss i a).2.length)
      ∧ (∀ ann ∈ (collectLoop t dirI dirC ss i a).2,
          ann.area = ann.bbox.2.2.1 * ann.bbox.2.2.2)
  | [], i, a => by simp [collectLoop]
  | s :: ss, i, a => by
    cases hfi : findImage dirI s with
    | none =>
      simpa [collectLoop, hfi] using collectLoop_spec t dirI dirC ss i a
    | some fwh =>
      obtain ⟨fname, w, h⟩ := fwh
      obtain ⟨ih1, ih2, ih3, ih4⟩ := collectLoop_spec t dirI dirC ss (i + 1)
        (a + (parse_csv_boxes t ((dirLookup dirC s).getD [])).length)
      refine ⟨?_, ?_, ?_, ?_⟩
      · simp [collectLoop, hfi, ih1, List.range']
      · simp [collectLoop, hfi, ih2]
      · simp only [collectLoop, hfi, List.map_append, List.length_append]
        rw [numberBoxes_ids, ih3, numberBoxes_length]
        rw [List.range'_append_1]
        congr 1
        omega
      · intro ann hann
        simp only [collectLoop, hfi, List.mem_append] at hann
        rcases hann with hann | hann
        · obtain ⟨b, hb, harea, hbbox⟩ := numberBoxes_mem _ _ _ ann hann
          rw [harea, hbbox]
          exact parse_csv_boxes_area t _ b hb
        · exact ih4 ann hann

/-- C7: image ids are the consecutive integers from 1 along the sorted
stem order with stems lacking an image file consuming no id (the id
list is exactly `range' 1 k` for `k` the number of stems with a found
image, and the file-name list is the in-order list of found images);
annotation ids are globally consecutive from 1 across the whole split;
every annotation's area equals the width times height of its own
bbox. -/
theorem coco_id_assignment (labelmap : List LabelEntry) (dirI : ImagesDir)
    (dirC : CsvDir) (content : Option PyStr) :
    ((collect_annotations_for_split labelmap dirI dirC content).1.map CocoImage.id
      = List.range' 1 (((pySorted (stemsForSplit content dirI).dedup).filter
          (fun s => (findImage dirI s).isSome)).length))
    ∧ ((collect_annotations_for_split labelmap dirI dirC content).1.map CocoImage.file_name
      = (pySorted (stemsForSplit content dirI).dedup).filterMap
          (fun s => (findImage dirI s).map Prod.fst))
    ∧ ((collect_annotations_for_split labelmap dirI dirC content).2.1.map CocoAnn.id
      = List.range' 1 (collect_annotations_for_split labelmap dirI dirC content).2.1.length)
    ∧ (∀ ann ∈ (collect_annotations_for_split labelmap dirI dirC content).2.1,
        ann.area = ann.bbox.2.2.1 * ann.bbox.2.2.2) := by
  have h := collectLoop_spec (load_labelmap labelmap) dirI dirC
    (pySorted (stemsForSplit content dirI).dedup) 1 1
  simpa [collect_annotations_for_split] using h

/-- Witness for C7 at a concrete one-image split. -/
theorem coco_id_assignment_witness :
    (collect_annotations_for_split lmBell [(pyOfString "a.jpg", 2, 3)] []
        (some [97])).1.map CocoImage.id
      = List.range' 1 (((pySorted (stemsForSplit (some [97])
          [(pyOfString "a.jpg", 2, 3)]).dedup).filter
          (fun s => (findImage [(pyOfString "a.jpg", 2, 3)] s).isSome)).length) :=
  (coco_id_assignment lmBell [(pyOfString "a.jpg", 2, 3)] [] (some [97])).1

/-! ## C8 -/

theorem collectLoop_all_missing (t : Table) (dirI : ImagesDir) (dirC : CsvDir) :
    ∀ (ss : List PyStr) (i a : Nat), (∀ s ∈ ss, findImage dirI s = none) →
      collectLoop t dirI dirC ss i a = ([], [])
  | [], _, _ => by simp [collectLoop]
  | s :: ss, i, a => by
    intro h
    have hs := h s (List.mem_cons_self _ _)
    have ih := collectLoop_all_missing t dirI dirC ss i a
      (fun x hx => h x (List.mem_cons_of_mem _ hx))
    simpa [collectLoop, hs] using ih

/-- C8 (corrected): when a non-empty split file lists only stems for
which no image file exists, the exporter completes with empty images
and annotations lists, and no warning is logged (the collection loop
prints nothing). -/
theorem missing_images_empty_output (labelmap : List LabelEntry) (dirI : ImagesDir)
    (dirC : CsvDir) (content : Option PyStr)
    (hne : read_split_list content ≠ [])
    (hmiss : ∀ s ∈ read_split_list content, findImage dirI s = none) :
    (collect_annotations_for_split labelmap dirI dirC content).1 = []
    ∧ (collect_annotations_for_split labelmap dirI dirC content).2.1 = []
    ∧ collectLoopMessages labelmap dirI dirC content = [] := by
  have hstems : stemsForSplit content dirI = read_split_list content := by
    simp [stemsForSplit, List.isEmpty_iff, hne]
  have hall : ∀ s ∈ pySorted (stemsForSplit content dirI).dedup, findImage dirI s = none := by
    intro s hs
    apply hmiss
    have hmem : s ∈ stemsForSplit content dirI := by
      simpa [pySorted, List.mem_mergeSort, List.mem_dedup] using hs
    rwa [hstems] at hmem
  have hloop := collectLoop_all_missing (load_labelmap labelmap) dirI dirC _ 1 1 hall
  refine ⟨?_, ?_, rfl⟩
  · simp [collect_annotations_for_split, hloop]
  · simp [collect_annotations_for_split, hloop]

/-- Witness for C8 on a concrete split file naming one missing stem. -/
theorem missing_images_empty_output_witness :
    (collect_annotations_for_split lmBell [] [] (some (pyOfString "ghost"))).1 = [] :=
  (missing_images_empty_output lmBell [] [] (some (pyOfString "ghost"))
    (by decide) (by decide)).1

/-- Counterexample for C8 as stated: the split file names the stem
`ghost`, no image exists, and the message list emitted by the
collection loop is empty, so no warning is logged for the missing
image. -/
theorem missing_images_no_warning_counterexample :
    collectLoopMessages lmBell [] [] (some (pyOfString "ghost")) = []
    ∧ read_split_list (some (pyOfString "ghost")) = [pyOfString "ghost"] :=
  ⟨rfl, by decide⟩

/-! ## Character-level lemmas -/

theorem lowerChar_upperChar (c : Nat) : lowerChar (upperChar c) = lowerChar c := by
  unfold lowerChar upperChar
  split_ifs <;> omega

theorem lowerChar_lowerChar (c : Nat) : lowerChar (lowerChar c) = lowerChar c := by
  unfold lowerChar
  split_ifs <;> omega

theorem isDigitChar_lowerChar (c : Nat) : isDigitChar (lowerChar c) = isDigitChar c := by
  rw [Bool.eq_iff_iff]
  simp only [isDigitChar, lowerChar, Bool.and_eq_true, decide_eq_true_eq]
  split_ifs with h <;> omega

theorem isDigitChar_upperChar (c : Nat) : isDigitChar (upperChar c) = isDigitChar c := by
  rw [Bool.eq_iff_iff]
  simp only [isDigitChar, upperChar, Bool.and_eq_true, decide_eq_true_eq]
  split_ifs with h <;> omega

theorem isDigitChar_u2s (c : Nat) :
    isDigitChar (if c = 95 then 32 else c) = isDigitChar c := by
  by_cases h : c = 95 <;> simp [h, isDigitChar]

theorem isDigitChar_s2u (c : Nat) :
    isDigitChar (if c = 32 then 95 else c) = isDigitChar c := by
  by_cases h : c = 32 <;> simp [h, isDigitChar]

theorem isSpaceChar_of_digit {c : Nat} (h : isDigitChar c = true) :
    isSpaceChar c = false := by
  simp only [isDigitChar, Bool.and_eq_true, decide_eq_true_eq] at h
  simp only [isSpaceChar, Bool.or_eq_false_iff, Bool.and_eq_false_iff]
  constructor
  · simp only [beq_eq_false_iff_ne, ne_eq]
    omega
  · right
    simp only [decide_eq_false_iff_not]
    omega

theorem lowerChar_of_digit {c : Nat} (h : isDigitChar c = true) : lowerChar c = c := by
  simp only [isDigitChar, Bool.and_eq_true, decide_eq_true_eq] at h
  unfold lowerChar
  rw [if_neg]
  omega

/-! ## String digitness lemmas -/

theorem pyIsDigit_iff (s : PyStr) :
    pyIsDigit s = true ↔ s ≠ [] ∧ ∀ c ∈ s, isDigitChar c = true := by
  simp [pyIsDigit, List.all_eq_true, List.isEmpty_iff]

theorem pyIsDigit_map_pres {f : Nat → Nat}
    (hf : ∀ c, isDigitChar (f c) = isDigitChar c) (s : PyStr) :
    pyIsDigit (s.map f) = pyIsDigit s := by
  cases s with
  | nil => rfl
  | cons c cs => simp [pyIsDigit, List.all_map, Function.comp_def, hf]

theorem all_digit_titleAux : ∀ (s : PyStr) (b : Bool),
    (pyTitleAux b s).all isDigitChar = s.all isDigitChar
  | [], _ => rfl
  | c :: cs, b => by
    unfold pyTitleAux
    by_cases h : isAlphaChar c
    · cases b <;>
        simp [h, all_digit_titleAux cs true, isDigitChar_lowerChar, isDigitChar_upperChar]
    · simp [h, all_digit_titleAux cs false]

theorem pyIsDigit_titleAux (b : Bool) (s : PyStr) :
    pyIsDigit (pyTitleAux b s) = pyIsDigit s := by
  cases s with
  | nil => rfl
  | cons c cs =>
    have hall := all_digit_titleAux (c :: cs) b
    unfold pyIsDigit
    rw [hall]
    congr 1
    unfold pyTitleAux
    by_cases h : isAlphaChar c <;> simp [h]

theorem pyIsDigit_capitalize (s : PyStr) : pyIsDigit (pyCapitalize s) = pyIsDigit s := by
  cases s with
  | nil => rfl
  | cons c cs =>
    simp [pyCapitalize, pyIsDigit, isDigitChar_upperChar, List.all_map,
      Function.comp_def, isDigitChar_lowerChar]

theorem pyIsDigit_eq_false_of_mem {s : PyStr} {c : Nat} (hc : c ∈ s)
    (hd : isDigitChar c = false) : pyIsDigit s = false := by
  rw [← Bool.not_eq_true, pyIsDigit_iff]
  rintro ⟨-, hall⟩
  rw [hall c hc] at hd
  cases hd

theorem pyLower_of_digits {s : PyStr} (h : ∀ c ∈ s, isDigitChar c = true) :
    pyLower s = s := by
  induction s with
  | nil => rfl
  | cons c cs ih =>
    simp only [pyLower, List.map_cons]
    rw [lowerChar_of_digit (h c (List.mem_cons_self _ _))]
    have := ih (fun c hc => h c (List.mem_cons_of_mem _ hc))
    simpa [pyLower] using this

theorem dropWhile_space_of_digits {s : PyStr} (h : ∀ c ∈ s, isDigitChar c = true) :
    s.dropWhile isSpaceChar = s := by
  cases s with
  | nil => rfl
  | cons c cs =>
    have := isSpaceChar_of_digit (h c (List.mem_cons_self _ _))
    simp [List.dropWhile_cons, this]

theorem pyStrip_of_digits {s : PyStr} (h : ∀ c ∈ s, isDigitChar c = true) :
    pyStrip s = s := by
  unfold pyStrip
  rw [dropWhile_space_of_digits h,
    dropWhile_space_of_digits (fun c hc => h c (List.mem_reverse.mp hc)),
    List.reverse_reverse]

theorem natDigitsGo_digits : ∀ (fuel n : Nat),
    natDigitsGo fuel n ≠ [] ∧ ∀ c ∈ natDigitsGo fuel n, isDigitChar c = true
  | 0, n => by
    refine ⟨by simp [natDigitsGo], ?_⟩
    intro c hc
    simp only [natDigitsGo, List.mem_singleton] at hc
    subst hc
    simp only [isDigitChar, Bool.and_eq_true, decide_eq_true_eq]
    omega
  | fuel + 1, n => by
    by_cases h : n < 10
    · refine ⟨by simp [natDigitsGo, h], ?_⟩
      intro c hc
      simp only [natDigitsGo, h, if_true, List.mem_singleton] at hc
      subst hc
      simp only [isDigitChar, Bool.and_eq_true, decide_eq_true_eq]
      omega
    · obtain ⟨h1, h2⟩ := natDigitsGo_digits fuel (n / 10)
      refine ⟨by simp [natDigitsGo, h], ?_⟩
      intro c hc
      simp only [natDigitsGo, h, if_false, List.mem_append, List.mem_singleton] at hc
      rcases hc with hc | hc
      · exact h2 c hc
      · subst hc
        simp only [isDigitChar, Bool.and_eq_true, decide_eq_true_eq]
        omega

theorem pyIsDigit_natDigits (n : Nat) : pyIsDigit (natDigits n) = true := by
  rw [pyIsDigit_iff]
  exact natDigitsGo_digits n n

theorem pyIsDigit_intStr {i : Int} (h : 0 ≤ i) : pyIsDigit (intStr i) = true := by
  unfold intStr
  rw [if_neg (by omega)]
  exact pyIsDigit_natDigits _

/-! ## Table construction lemmas -/

theorem mem_insertAll : ∀ (vs : List PyStr) (lid : Int) (t : Table) (p : PyStr × Int),
    p ∈ vs.foldl (fun t' v => pyInsert t' v lid) t → (p.1 ∈ vs ∧ p.2 = lid) ∨ p ∈ t
  | [], _, _, _ => fun h => Or.inr h
  | v :: vs, lid, t, p => by
    intro h
    simp only [List.foldl_cons] at h
    rcases mem_insertAll vs lid (pyInsert t v lid) p h with h1 | h1
    · exact Or.inl ⟨List.mem_cons_of_mem _ h1.1, h1.2⟩
    · rcases mem_pyInsert h1 with h2 | h2
      · subst h2
        exact Or.inl ⟨List.mem_cons_self _ _, rfl⟩
      · exact Or.inr h2

theorem lookup_insertAll_mem : ∀ (vs : List PyStr) (lid : Int) (t : Table) (k : PyStr),
    (k ∈ vs → pyLookup (vs.foldl (fun t' v => pyInsert t' v lid) t) k = some lid)
    ∧ (k ∉ vs → pyLookup (vs.foldl (fun t' v => pyInsert t' v lid) t) k = pyLookup t k)
  | [], lid, t, k => by
    constructor
    · intro h
      cases h
    · intro h
      rfl
  | v :: vs, lid, t, k => by
    constructor
    · intro h
      simp only [List.foldl_cons]
      by_cases hk : k ∈ vs
      · exact (lookup_insertAll_mem vs lid (pyInsert t v lid) k).1 hk
      · have hv : k = v := by
          rcases List.mem_cons.mp h with h1 | h1
          · exact h1
          · exact absurd h1 hk
        subst hv
        rw [(lookup_insertAll_mem vs lid (pyInsert t k lid) k).2 hk,
          pyLookup_pyInsert, if_pos rfl]
    · intro h
      simp only [List.foldl_cons]
      have hv : k ≠ v := fun hh => h (hh ▸ List.mem_cons_self _ _)
      have hvs : k ∉ vs := fun hh => h (List.mem_cons_of_mem _ hh)
      rw [(lookup_insertAll_mem vs lid (pyInsert t v lid) k).2 hvs,
        pyLookup_pyInsert, if_neg hv]

theorem mem_variantFold (vf : LabelEntry → List PyStr) :
    ∀ (lm : List LabelEntry) (t : Table) (p : PyStr × Int),
      p ∈ lm.foldl (fun tt e => if 0 < e.object_id then
          (vf e).foldl (fun t' v => pyInsert t' v e.label_id) tt else tt) t →
      (∃ e ∈ lm, 0 < e.object_id ∧ p.1 ∈ vf e ∧ p.2 = e.label_id) ∨ p ∈ t
  | [], _, _ => fun h => Or.inr h
  | e :: lm, t, p => by
    intro h
    simp only [List.foldl_cons] at h
    rcases mem_variantFold vf lm _ p h with h1 | h1
    · obtain ⟨e', he', rest⟩ := h1
      exact Or.inl ⟨e', List.mem_cons_of_mem _ he', rest⟩
    · by_cases hid : 0 < e.object_id
      · rw [if_pos hid] at h1
        rcases mem_insertAll _ _ _ _ h1 with h2 | h2
        · exact Or.inl ⟨e, List.mem_cons_self _ _, hid, h2.1, h2.2⟩
        · exact Or.inr h2
      · rw [if_neg hid] at h1
        exact Or.inr h1

theorem lookup_variantFold (vf : LabelEntry → List PyStr) :
    ∀ (lm : List LabelEntry) (t : Table) (k : PyStr) (v : Int),
      (∀ e ∈ lm, 0 < e.object_id → ∀ u ∈ vf e, u = k → e.label_id = v) →
      ((∃ e ∈ lm, 0 < e.object_id ∧ k ∈ vf e ∧ e.label_id = v) ∨ pyLookup t k = some v) →
      pyLookup (lm.foldl (fun tt e => if 0 < e.object_id then
          (vf e).foldl (fun t' u => pyInsert t' u e.label_id) tt else tt) t) k = some v
  | [], t, k, v => by
    intro hall hmem
    rcases hmem with ⟨e, he, -⟩ | hr
    · cases he
    · exact hr
  | e :: lm, t, k, v => by
    intro hall hmem
    simp only [List.foldl_cons]
    apply lookup_variantFold vf lm _ k v (fun e' he' => hall e' (List.mem_cons_of_mem _ he'))
    rcases hmem with ⟨e', he', hid', hk', hv'⟩ | hr
    · rcases List.mem_cons.mp he' with h1 | h1
      · subst h1
        right
        rw [if_pos hid']
        rw [(lookup_insertAll_mem _ _ _ _).1 hk']
        rw [hv']
      · exact Or.inl ⟨e', h1, hid', hk', hv'⟩
    · right
      by_cases hid : 0 < e.object_id
      · rw [if_pos hid]
        by_cases hk : k ∈ vf e
        · rw [(lookup_insertAll_mem _ _ _ _).1 hk]
          rw [hall e (List.mem_cons_self _ _) hid k hk rfl]
        · rw [(lookup_insertAll_mem _ _ _ _).2 hk]
          exact hr
      · rw [if_neg hid]
        exact hr

theorem mem_updaterVariantPass {lm : List LabelEntry} {p : PyStr × Int}
    (h : p ∈ updaterVariantPass lm) :
    ∃ e ∈ lm, 0 < e.object_id ∧ p.1 ∈ updaterVariants e.object_name
      ∧ p.2 = e.label_id := by
  rcases mem_variantFold (fun e => updaterVariants e.object_name) lm [] p h with h1 | h1
  · exact h1
  · cases h1

theorem mem_load_labelmap {lm : List LabelEntry} {p : PyStr × Int}
    (h : p ∈ load_labelmap lm) :
    ∃ e ∈ lm, 0 < e.object_id ∧ p.1 ∈ exporterVariants e.object_name
      ∧ p.2 = e.label_id := by
  rcases mem_variantFold (fun e => exporterVariants e.object_name) lm [] p h with h1 | h1
  · exact h1
  · cases h1

theorem mem_origStep {lm : List LabelEntry} {t : Table} {oc : PyStr} {p : PyStr × Int}
    (h : p ∈ origStep lm t oc) : p ∈ t ∨ p.1 = oc := by
  unfold origStep at h
  cases hfind : lm.find? (fun item => decide (0 < item.object_id) &&
      item.object_name == normalizeLabel oc) with
  | some item =>
    rw [hfind] at h
    simp only at h
    split at h
    · rcases mem_pyInsert h with h1 | h1
      · subst h1
        exact Or.inr rfl
      · exact Or.inl h1
    · split at h
      · rcases mem_pyInsert h with h1 | h1
        · subst h1
          exact Or.inr rfl
        · rcases mem_pyInsert h1 with h2 | h2
          · subst h2
            exact Or.inr rfl
          · exact Or.inl h2
      · rcases mem_pyInsert h with h1 | h1
        · subst h1
          exact Or.inr rfl
        · exact Or.inl h1
  | none =>
    rw [hfind] at h
    simp only at h
    split at h
    · exact Or.inl h
    · split at h
      · rcases mem_pyInsert h with h1 | h1
        · subst h1
          exact Or.inr rfl
        · exact Or.inl h1
      · exact Or.inl h

theorem mem_updaterOrigPass : ∀ (origs : List PyStr) (lm : List LabelEntry)
    (t : Table) (p : PyStr × Int),
    p ∈ updaterOrigPass lm t origs → p ∈ t ∨ p.1 ∈ origs
  | [], _, _, _ => fun h => Or.inl h
  | oc :: origs, lm, t, p => by
    intro h
    have h' : p ∈ updaterOrigPass lm (origStep lm t oc) origs := h
    rcases mem_updaterOrigPass origs lm _ p h' with h1 | h1
    · rcases mem_origStep h1 with h2 | h2
      · exact Or.inl h2
      · exact Or.inr (h2 ▸ List.mem_cons_self _ _)
    · exact Or.inr (List.mem_cons_of_mem _ h1)

theorem origStep_values {lm : List LabelEntry} {t : Table} {oc : PyStr}
    (hlm : ∀ e ∈ lm, 0 < e.object_id → 0 ≤ e.label_id)
    (ht : ∀ p ∈ t, 0 ≤ p.2) : ∀ p ∈ origStep lm t oc, 0 ≤ p.2 := by
  intro p hp
  unfold origStep at hp
  cases hfind : lm.find? (fun item => decide (0 < item.object_id) &&
      item.object_name == normalizeLabel oc) with
  | some item =>
    rw [hfind] at hp
    have hpred := List.find?_some hfind
    simp only [Bool.and_eq_true, decide_eq_true_eq] at hpred
    have hitem : 0 ≤ item.label_id :=
      hlm item (List.mem_of_find?_eq_some hfind) hpred.1
    have ht1 : ∀ q ∈ pyInsert t oc item.label_id, 0 ≤ q.2 := by
      intro q hq
      rcases mem_pyInsert hq with h1 | h1
      · rw [h1]
        exact hitem
      · exact ht q h1
    simp only at hp
    split at hp
    · exact ht1 p hp
    · split at hp
      next kv hkv =>
        rcases mem_pyInsert hp with h1 | h1
        · rw [h1]
          exact ht1 kv (List.mem_of_find?_eq_some hkv)
        · exact ht1 p h1
      next => exact ht1 p hp
  | none =>
    rw [hfind] at hp
    simp only at hp
    split at hp
    · exact ht p hp
    · split at hp
      next kv hkv =>
        rcases mem_pyInsert hp with h1 | h1
        · rw [h1]
          exact ht kv (List.mem_of_find?_eq_some hkv)
        · exact ht p h1
      next => exact ht p hp

theorem updaterOrigPass_values : ∀ (origs : List PyStr) (lm : List LabelEntry) (t : Table),
    (∀ e ∈ lm, 0 < e.object_id → 0 ≤ e.label_id) →
    (∀ p ∈ t, 0 ≤ p.2) → ∀ p ∈ updaterOrigPass lm t origs, 0 ≤ p.2
  | [], _, _, _, ht => ht
  | oc :: origs, lm, t, hlm, ht => fun p hp =>
    updaterOrigPass_values origs lm (origStep lm t oc) hlm (origStep_values hlm ht) p hp

theorem lookup_origStep_ne {lm : List LabelEntry} {t : Table} {oc k : PyStr}
    (hne : oc ≠ k) : pyLookup (origStep lm t oc) k = pyLookup t k := by
  unfold origStep
  cases hfind : lm.find? (fun item => decide (0 < item.object_id) &&
      item.object_name == normalizeLabel oc) with
  | some item =>
    simp only
    split
    · rw [pyLookup_pyInsert, if_neg (fun hh => hne hh.symm)]
    · split
      · rw [pyLookup_pyInsert, if_neg (fun hh => hne hh.symm),
          pyLookup_pyInsert, if_neg (fun hh => hne hh.symm)]
      · rw [pyLookup_pyInsert, if_neg (fun hh => hne hh.symm)]
  | none =>
    simp only
    split
    · rfl
    · split
      · rw [pyLookup_pyInsert, if_neg (fun hh => hne hh.symm)]
      · rfl

theorem lookup_origStep_eq {lm : List LabelEntry} {t : Table} {k : PyStr} {v : Int}
    (hstart : pyLookup t k = some v)
    (hdirect : ∀ item, lm.find? (fun it => decide (0 < it.object_id) &&
      it.object_name == normalizeLabel k) = some item → item.label_id = v) :
    pyLookup (origStep lm t k) k = some v := by
  unfold origStep
  cases hfind : lm.find? (fun item => decide (0 < item.object_id) &&
      item.object_name == normalizeLabel k) with
  | some item =>
    have hv := hdirect item hfind
    have h1 : pyLookup (pyInsert t k item.label_id) k = some v := by
      rw [pyLookup_pyInsert, if_pos rfl, hv]
    simp only
    rw [if_pos (by rw [h1]; rfl)]
    exact h1
  | none =>
    simp only
    rw [if_pos (by rw [hstart]; rfl)]
    exact hstart

theorem lookup_updaterOrigPass : ∀ (origs : List PyStr) (lm : List LabelEntry)
    (t : Table) (k : PyStr) (v : Int),
    pyLookup t k = some v →
    (∀ item, lm.find? (fun it => decide (0 < it.object_id) &&
      it.object_name == normalizeLabel k) = some item → item.label_id = v) →
    pyLookup (updaterOrigPass lm t origs) k = some v
  | [], _, _, _, _, hstart, _ => hstart
  | oc :: origs, lm, t, k, v, hstart, hdirect => by
    have hstep : pyLookup (origStep lm t oc) k = some v := by
      by_cases hoc : oc = k
      · subst hoc
        exact lookup_origStep_eq hstart hdirect
      · rw [lookup_origStep_ne hoc]
        exact hstart
    exact lookup_updaterOrigPass origs lm (origStep lm t oc) k v hstep hdirect

/-! ## C6 -/

theorem updaterVariants_nondigit {n : PyStr} (h : pyIsDigit n = false) :
    ∀ v ∈ updaterVariants n, pyIsDigit v = false := by
  have hu2s : pyIsDigit (underscoreToSpace n) = false := by
    unfold underscoreToSpace
    rw [pyIsDigit_map_pres isDigitChar_u2s]
    exact h
  intro v hv
  unfold updaterVariants at hv
  rcases List.mem_append.mp hv with h5 | hleaf
  · simp only [List.mem_cons, List.not_mem_nil, or_false] at h5
    rcases h5 with rfl | rfl | rfl | rfl | rfl
    · exact h
    · exact hu2s
    · unfold pyTitle
      rw [pyIsDigit_titleAux]
      exact hu2s
    · unfold pyTitle
      rw [pyIsDigit_titleAux]
      exact h
    · rw [pyIsDigit_capitalize]
      exact hu2s
  · by_cases hsuf : List.isSuffixOf [95, 108, 101, 97, 102] n
    · rw [if_pos hsuf] at hleaf
      simp only [List.mem_cons, List.not_mem_nil, or_false] at hleaf
      have hmem32 : ∀ (x : PyStr), (32 : Nat) ∈ x ++ [32, 108, 101, 97, 102] :=
        fun x => List.mem_append.mpr (Or.inr (List.mem_cons_self _ _))
      rcases hleaf with rfl | rfl | rfl <;>
        exact pyIsDigit_eq_false_of_mem (hmem32 _) rfl
    · rw [if_neg hsuf] at hleaf
      cases hleaf

theorem updaterTable_keys_nondigit {lm : List LabelEntry} {classRows : List PyStr}
    (hnames : ∀ e ∈ lm, 0 < e.object_id → pyIsDigit e.object_name = false) :
    ∀ p ∈ buildUpdaterTable lm classRows, pyIsDigit p.1 = false := by
  intro p hp
  rcases mem_updaterOrigPass _ lm _ p hp with h1 | h1
  · obtain ⟨e, he, hid, hvv, -⟩ := mem_updaterVariantPass h1
    exact updaterVariants_nondigit (hnames e he hid) _ hvv
  · simp only [originalClasses, List.mem_dedup, List.mem_filter, Bool.and_eq_true,
      Bool.not_eq_true'] at h1
    exact h1.2.2

theorem updaterTable_values_nonneg {lm : List LabelEntry} {classRows : List PyStr}
    (hids : ∀ e ∈ lm, 0 < e.object_id → 0 ≤ e.label_id) :
    ∀ p ∈ buildUpdaterTable lm classRows, 0 ≤ p.2 := by
  apply updaterOrigPass_values _ _ _ hids
  intro p hp
  obtain ⟨e, he, hid, -, hv⟩ := mem_updaterVariantPass hp
  rw [hv]
  exact hids e he hid

theorem resolveUpdater_digit_none {t : Table}
    (hkeys : ∀ p ∈ t, pyIsDigit p.1 = false) {s : PyStr} (hs : pyIsDigit s = true) :
    resolveUpdaterLabel t s = none := by
  unfold resolveUpdaterLabel
  have h1 : pyLookup t s = none := by
    apply pyLookup_eq_none
    intro p hp heq
    have hk := hkeys p hp
    rw [heq, hs] at hk
    cases hk
  rw [h1]
  have h2 : t.find? (fun kv => pyLower kv.1 == pyLower s) = none := by
    rw [List.find?_eq_none]
    intro kv hkv
    simp only [beq_iff_eq, ne_eq]
    intro heq
    have hk : pyIsDigit (pyLower kv.1) = false := by
      unfold pyLower
      rw [pyIsDigit_map_pres isDigitChar_lowerChar]
      exact hkeys kv hkv
    have hs' : pyIsDigit (pyLower s) = true := by
      unfold pyLower
      rw [pyIsDigit_map_pres isDigitChar_lowerChar]
      exact hs
    rw [heq, hs'] at hk
    cases hk
  rw [h2]
  rfl

theorem resolveUpdater_val_mem {t : Table} {s : PyStr} {v : Int}
    (h : resolveUpdaterLabel t s = some v) : ∃ k, (k, v) ∈ t := by
  unfold resolveUpdaterLabel at h
  cases hl : pyLookup t s with
  | some v' =>
    rw [hl] at h
    cases h
    exact ⟨s, pyLookup_some_mem hl⟩
  | none =>
    rw [hl] at h
    cases hf : t.find? (fun kv => pyLower kv.1 == pyLower s) with
    | some kv =>
      rw [hf] at h
      obtain ⟨k1, k2⟩ := kv
      simp only [Option.map_some'] at h
      cases h
      exact ⟨k1, List.mem_of_find?_eq_some hf⟩
    | none =>
      rw [hf] at h
      cases h

theorem updateRow_digit_unchanged {t : Table}
    (hkeys : ∀ p ∈ t, pyIsDigit p.1 = false) {row : List PyStr}
    (hd : pyIsDigit (pyStrip (row.getD 5 [])) = true) :
    updateRow t row = (row, false) := by
  unfold updateRow
  by_cases hl : 6 ≤ row.length
  · rw [if_pos hl, resolveUpdater_digit_none hkeys hd]
  · rw [if_neg hl]

theorem updateRow_second_flag_false {t : Table}
    (hkeys : ∀ p ∈ t, pyIsDigit p.1 = false)
    (hvals : ∀ p ∈ t, 0 ≤ p.2) (row : List PyStr) :
    (updateRow t (updateRow t row).1).2 = false := by
  by_cases hl : 6 ≤ row.length
  · cases hres : resolveUpdaterLabel t (pyStrip (row.getD 5 [])) with
    | none =>
      have h1 : updateRow t row = (row, false) := by
        unfold updateRow
        rw [if_pos hl, hres]
      rw [h1]
      simp only
      unfold updateRow
      rw [if_pos hl, hres]
    | some v =>
      have h1 : updateRow t row = (row.set 5 (intStr v), true) := by
        unfold updateRow
        rw [if_pos hl, hres]
      rw [h1]
      simp only
      have hv : 0 ≤ v := by
        obtain ⟨k, hk⟩ := resolveUpdater_val_mem hres
        exact hvals (k, v) hk
      have hgetD : (row.set 5 (intStr v)).getD 5 [] = intStr v := by
        rw [List.getD_eq_getElem?_getD, List.getElem?_set_self (by omega)]
        rfl
      have hdig : pyIsDigit (pyStrip ((row.set 5 (intStr v)).getD 5 [])) = true := by
        rw [hgetD, pyStrip_of_digits ((pyIsDigit_iff _).mp (pyIsDigit_intStr hv)).2]
        exact pyIsDigit_intStr hv
      rw [updateRow_digit_unchanged hkeys hdig]
  · have h1 : updateRow t row = (row, false) := by
      unfold updateRow
      rw [if_neg hl]
    rw [h1]
    simp only
    unfold updateRow
    rw [if_neg hl]

/-- C6: on a per-image CSV whose label column is numeric in every row
the updater resolves nothing and leaves the file unwritten, and after
any successful run the rewritten file resolves nothing on a second run,
so the second run leaves it unwritten and running twice equals running
once. -/
theorem numeric_labels_idempotent (lm : List LabelEntry) (classRows : List PyStr)
    (hnames : ∀ e ∈ lm, 0 < e.object_id → pyIsDigit e.object_name = false)
    (hids : ∀ e ∈ lm, 0 < e.object_id → 0 ≤ e.label_id)
    (header : List PyStr) :
    (∀ body : List (List PyStr),
      (∀ row ∈ body, pyIsDigit (pyStrip (row.getD 5 [])) = true) →
      update_csv_labels (buildUpdaterTable lm classRows) header body = none)
    ∧ (∀ body newBody : List (List PyStr),
      update_csv_labels (buildUpdaterTable lm classRows) header body
        = some (header :: newBody) →
      update_csv_labels (buildUpdaterTable lm classRows) header newBody = none) := by
  have hkeys := @updaterTable_keys_nondigit lm classRows hnames
  have hvals := @updaterTable_values_nonneg lm classRows hids
  constructor
  · intro body hb
    unfold update_csv_labels
    rw [if_neg]
    intro hany
    simp only [List.any_eq_true, List.mem_map] at hany
    obtain ⟨q, ⟨row, hrow, hq⟩, hflag⟩ := hany
    rw [← hq, updateRow_digit_unchanged hkeys (hb row hrow)] at hflag
    cases hflag
  · intro body newBody hsome
    have hsome' : (if (body.map (updateRow (buildUpdaterTable lm classRows))).any Prod.snd
          = true
        then some (header ::
          (body.map (updateRow (buildUpdaterTable lm classRows))).map Prod.fst)
        else none) = some (header :: newBody) := hsome
    split at hsome'
    · simp only [Option.some.injEq, List.cons.injEq, true_and] at hsome'
      subst hsome'
      unfold update_csv_labels
      rw [if_neg]
      intro hany
      simp only [List.any_eq_true, List.mem_map] at hany
      obtain ⟨q, ⟨row', ⟨p, ⟨row, hrow, hp⟩, hrow'⟩, hq⟩, hflag⟩ := hany
      rw [← hq, ← hrow', ← hp, updateRow_second_flag_false hkeys hvals row] at hflag
      cases hflag
    · cases hsome'

/-- Witness for C6: on the one-class labelmap a file whose single row
carries the numeric label 7 is left unwritten. -/
theorem numeric_labels_idempotent_witness :
    update_csv_labels (buildUpdaterTable lmBell []) [pyOfString "label"]
      [[[48], [53], [53], [49], [49], [55]]] = none :=
  (numeric_labels_idempotent lmBell [] (by decide) (by decide) [pyOfString "label"]).1
    [[[48], [53], [53], [49], [49], [55]]] (by decide)

/-! ## Canonical-name normalization lemmas -/

theorem canonChar_iff (c : Nat) :
    canonChar c = true ↔ (97 ≤ c ∧ c ≤ 122) ∨ c = 95 ∨ (48 ≤ c ∧ c ≤ 57) := by
  simp only [canonChar, Bool.or_eq_true, Bool.and_eq_true, decide_eq_true_eq, beq_iff_eq]
  omega

theorem map_eq_self_of_mem {f : Nat → Nat} : ∀ {s : PyStr},
    (∀ c ∈ s, f c = c) → s.map f = s
  | [], _ => rfl
  | c :: cs, h => by
    simp only [List.map_cons]
    rw [h c (List.mem_cons_self _ _),
      map_eq_self_of_mem (fun c hc => h c (List.mem_cons_of_mem _ hc))]

theorem canon_s2u_lower (c : Nat) (h : canonChar c = true) :
    (if lowerChar c = 32 then 95 else lowerChar c) = c := by
  have h' := (canonChar_iff c).mp h
  unfold lowerChar
  split_ifs <;> omega

theorem canon_u2s_roundtrip (c : Nat) (h : canonChar c = true) :
    (if lowerChar (if c = 95 then 32 else c) = 32 then 95
      else lowerChar (if c = 95 then 32 else c)) = c := by
  have h' := (canonChar_iff c).mp h
  unfold lowerChar
  split_ifs <;> omega

theorem normalizeLabel_map (s : PyStr) :
    normalizeLabel s = s.map (fun c => if lowerChar c = 32 then 95 else lowerChar c) := by
  unfold normalizeLabel spaceToUnderscore pyLower
  rw [List.map_map]
  rfl

theorem normalizeLabel_canon {s : PyStr} (h : s.all canonChar = true) :
    normalizeLabel s = s := by
  rw [normalizeLabel_map]
  exact map_eq_self_of_mem fun c hc => canon_s2u_lower c (List.all_eq_true.mp h c hc)

theorem normalizeLabel_u2s_canon {s : PyStr} (h : s.all canonChar = true) :
    normalizeLabel (underscoreToSpace s) = s := by
  rw [normalizeLabel_map]
  unfold underscoreToSpace
  rw [List.map_map]
  exact map_eq_self_of_mem fun c hc => canon_u2s_roundtrip c (List.all_eq_true.mp h c hc)

theorem pyLower_titleAux : ∀ (s : PyStr) (b : Bool),
    pyLower (pyTitleAux b s) = pyLower s
  | [], _ => rfl
  | c :: cs, b => by
    have ihT := pyLower_titleAux cs true
    have ihF := pyLower_titleAux cs false
    unfold pyTitleAux
    by_cases h : isAlphaChar c
    · cases b <;>
        simp [h, pyLower, lowerChar_lowerChar, lowerChar_upperChar] <;>
        simpa [pyLower] using ihT
    · simp [h, pyLower]
      simpa [pyLower] using ihF

theorem normalizeLabel_pyTitle (s : PyStr) :
    normalizeLabel (pyTitle s) = normalizeLabel s := by
  unfold normalizeLabel pyTitle
  rw [pyLower_titleAux]

theorem pyLower_pyCapitalize (s : PyStr) : pyLower (pyCapitalize s) = pyLower s := by
  cases s with
  | nil => rfl
  | cons c cs =>
    simp [pyCapitalize, pyLower, List.map_map, lowerChar_upperChar, lowerChar_lowerChar,
      Function.comp_def]

theorem normalizeLabel_pyCapitalize (s : PyStr) :
    normalizeLabel (pyCapitalize s) = normalizeLabel s := by
  unfold normalizeLabel
  rw [pyLower_pyCapitalize]

theorem normalizeLabel_append (a b : PyStr) :
    normalizeLabel (a ++ b) = normalizeLabel a ++ normalizeLabel b := by
  simp [normalizeLabel, pyLower, spaceToUnderscore]

theorem suffix_decomp {n : PyStr} (h : List.isSuffixOf [95, 108, 101, 97, 102] n = true) :
    n = n.take (n.length - 5) ++ [95, 108, 101, 97, 102] := by
  obtain ⟨a, ha⟩ := List.isSuffixOf_iff_suffix.mp h
  subst ha
  have hl : (a ++ [95, 108, 101, 97, 102]).length - 5 = a.length := by simp
  rw [hl, List.take_left]

theorem all_canon_take {s : PyStr} (h : s.all canonChar = true) (k : Nat) :
    (s.take k).all canonChar = true := by
  rw [List.all_eq_true] at h ⊢
  exact fun c hc => h c (List.take_subset k s hc)

theorem updaterVariants_normalize {n : PyStr} (h : n.all canonChar = true) :
    ∀ v ∈ updaterVariants n, normalizeLabel v = n := by
  have hleafconst : normalizeLabel [32, 108, 101, 97, 102] = [95, 108, 101, 97, 102] := by
    decide
  intro v hv
  unfold updaterVariants at hv
  rcases List.mem_append.mp hv with h5 | hleaf
  · simp only [List.mem_cons, List.not_mem_nil, or_false] at h5
    rcases h5 with rfl | rfl | rfl | rfl | rfl
    · exact normalizeLabel_canon h
    · exact normalizeLabel_u2s_canon h
    · rw [normalizeLabel_pyTitle]
      exact normalizeLabel_u2s_canon h
    · rw [normalizeLabel_pyTitle]
      exact normalizeLabel_canon h
    · rw [normalizeLabel_pyCapitalize]
      exact normalizeLabel_u2s_canon h
  · by_cases hsuf : List.isSuffixOf [95, 108, 101, 97, 102] n = true
    · rw [if_pos hsuf] at hleaf
      simp only [List.mem_cons, List.not_mem_nil, or_false] at hleaf
      have hbase : (n.take (n.length - 5)).all canonChar = true := all_canon_take h _
      have hdec := suffix_decomp hsuf
      rcases hleaf with rfl | rfl | rfl
      · rw [normalizeLabel_append, normalizeLabel_u2s_canon hbase, hleafconst]
        exact hdec.symm
      · rw [normalizeLabel_append, normalizeLabel_pyTitle,
          normalizeLabel_u2s_canon hbase, hleafconst]
        exact hdec.symm
      · rw [normalizeLabel_append, normalizeLabel_pyTitle,
          normalizeLabel_canon hbase, hleafconst]
        exact hdec.symm
    · rw [if_neg hsuf] at hleaf
      cases hleaf

theorem exporterVariants_normalize {n : PyStr} (h : n.all canonChar = true) :
    ∀ v ∈ exporterVariants n, normalizeLabel v = n := by
  intro v hv
  unfold exporterVariants at hv
  simp only [List.mem_cons, List.not_mem_nil, or_false] at hv
  rcases hv with rfl | rfl | rfl | rfl
  · exact normalizeLabel_canon h
  · exact normalizeLabel_u2s_canon h
  · rw [normalizeLabel_pyTitle]
    exact normalizeLabel_u2s_canon h
  · rw [normalizeLabel_pyTitle]
    exact normalizeLabel_canon h

theorem normalizeLabel_of_digits {s : PyStr} (h : pyIsDigit s = true) :
    normalizeLabel s = s := by
  obtain ⟨-, hall⟩ := (pyIsDigit_iff s).mp h
  rw [normalizeLabel_map]
  apply map_eq_self_of_mem
  intro c hc
  have hd := hall c hc
  have hc32 : ¬lowerChar c = 32 := by
    rw [lowerChar_of_digit hd]
    simp only [isDigitChar, Bool.and_eq_true, decide_eq_true_eq] at hd
    omega
  rw [lowerChar_of_digit hd] at hc32 ⊢
  rw [if_neg hc32]

theorem nondigit_of_canon {s : PyStr} (h : isCanonicalName s = true) :
    pyIsDigit s = false := by
  simp only [isCanonicalName, Bool.and_eq_true, Bool.not_eq_true'] at h
  exact h.2

theorem spelling_nondigit {s n : PyStr} (hcn : isCanonicalName n = true)
    (hnorm : normalizeLabel s = n) : pyIsDigit s = false := by
  by_cases hd : pyIsDigit s = true
  · rw [normalizeLabel_of_digits hd] at hnorm
    subst hnorm
    have := nondigit_of_canon hcn
    rw [hd] at this
    cases this
  · rw [Bool.eq_false_iff]
    exact hd

/-! ## C5 -/

theorem lookup_updaterVariantPass {lm : List LabelEntry} {k : PyStr} {v : Int}
    (hall : ∀ e ∈ lm, 0 < e.object_id →
      ∀ u ∈ updaterVariants e.object_name, u = k → e.label_id = v)
    (hmem : ∃ e ∈ lm, 0 < e.object_id ∧ k ∈ updaterVariants e.object_name
      ∧ e.label_id = v) :
    pyLookup (updaterVariantPass lm) k = some v := by
  unfold updaterVariantPass
  exact lookup_variantFold (fun e => updaterVariants e.object_name) lm [] k v hall
    (Or.inl hmem)

theorem lookup_load_labelmap {lm : List LabelEntry} {k : PyStr} {v : Int}
    (hall : ∀ e ∈ lm, 0 < e.object_id →
      ∀ u ∈ exporterVariants e.object_name, u = k → e.label_id = v)
    (hmem : ∃ e ∈ lm, 0 < e.object_id ∧ k ∈ exporterVariants e.object_name
      ∧ e.label_id = v) :
    pyLookup (load_labelmap lm) k = some v := by
  unfold load_labelmap
  exact lookup_variantFold (fun e => exporterVariants e.object_name) lm [] k v hall
    (Or.inl hmem)

theorem canon_of_canonicalName {s : PyStr} (h : isCanonicalName s = true) :
    s.all canonChar = true := by
  simp only [isCanonicalName, Bool.and_eq_true] at h
  exact h.1

/-- C5: against a labelmap whose object names are canonical (lowercase,
underscore-separated, non-numeric) and pairwise distinct, the three
spellings of an entry name - the underscore form, the title-cased
space form and the title-cased underscore form - all resolve to that
entry's label id, in the updater resolver and in the exporter
resolver. -/
theorem canonical_spellings_resolve (lm : List LabelEntry) (classRows : List PyStr)
    (e : LabelEntry) (he : e ∈ lm) (hid : 0 < e.object_id)
    (hcanon : ∀ x ∈ lm, isCanonicalName x.object_name = true)
    (hnodup : (lm.map LabelEntry.object_name).Nodup) :
    ∀ s ∈ [e.object_name, pyTitle (underscoreToSpace e.object_name),
        pyTitle e.object_name],
      resolveUpdaterLabel (buildUpdaterTable lm classRows) s = some e.label_id
      ∧ resolveExporterLabel (load_labelmap lm) s = some e.label_id := by
  have hecanon : e.object_name.all canonChar = true :=
    canon_of_canonicalName (hcanon e he)
  have hinj := List.inj_on_of_nodup_map hnodup
  intro s hs
  have hsvar : s ∈ updaterVariants e.object_name := by
    simp only [List.mem_cons, List.not_mem_nil, or_false] at hs
    unfold updaterVariants
    rcases hs with rfl | rfl | rfl <;> simp
  have hnorm : normalizeLabel s = e.object_name :=
    updaterVariants_normalize hecanon s hsvar
  have hnd : pyIsDigit s = false := spelling_nondigit (hcanon e he) hnorm
  constructor
  · have hlook : pyLookup (buildUpdaterTable lm classRows) s = some e.label_id := by
      unfold buildUpdaterTable
      apply lookup_updaterOrigPass
      · apply lookup_updaterVariantPass
        · intro e' he' hid' u hu hus
          have h1 : normalizeLabel u = e'.object_name :=
            updaterVariants_normalize (canon_of_canonicalName (hcanon e' he')) u hu
          have h2 : e' = e := by
            apply hinj he' he
            rw [← h1, hus, hnorm]
          rw [h2]
        · exact ⟨e, he, hid, hsvar, rfl⟩
      · intro item hfind
        have hpred := List.find?_some hfind
        simp only [Bool.and_eq_true, decide_eq_true_eq, beq_iff_eq] at hpred
        have h2 : item = e := by
          apply hinj (List.mem_of_find?_eq_some hfind) he
          rw [hpred.2, hnorm]
        rw [h2]
    unfold resolveUpdaterLabel
    rw [hlook]
  · have hlook : pyLookup (load_labelmap lm) (normalizeLabel s) = some e.label_id := by
      rw [hnorm]
      apply lookup_load_labelmap
      · intro e' he' hid' u hu hus
        have h1 : normalizeLabel u = e'.object_name :=
          exporterVariants_normalize (canon_of_canonicalName (hcanon e' he')) u hu
        have h2 : e' = e := by
          apply hinj he' he
          rw [← h1, hus, normalizeLabel_canon hecanon]
        rw [h2]
      · refine ⟨e, he, hid, ?_, rfl⟩
        unfold exporterVariants
        simp
    unfold resolveExporterLabel
    rw [hnd]
    simp only [Bool.false_eq_true, if_false]
    rw [hlook]

/-- Witness for C5: the three spellings of `bell_pepper_leaf` resolve
to id 1 in both resolvers against the concrete labelmap; the witness
instantiates the title-cased space form. -/
theorem canonical_spellings_resolve_witness :
    resolveUpdaterLabel (buildUpdaterTable lmBell []) (pyOfString "Bell Pepper Leaf")
      = some 1
    ∧ resolveExporterLabel (load_labelmap lmBell) (pyOfString "Bell Pepper Leaf")
      = some 1 := by
  have h := canonical_spellings_resolve lmBell []
    { object_id := 1, label_id := 1, keyboard_shortcut := [49],
      object_name := pyOfString "bell_pepper_leaf" }
    (by decide) (by decide) (by decide) (by decide)
    (pyTitle (underscoreToSpace (pyOfString "bell_pepper_leaf"))) (by decide)
  rwa [show pyTitle (underscoreToSpace (pyOfString "bell_pepper_leaf"))
      = pyOfString "Bell Pepper Leaf" by decide] at h
